import Mathlib

/-!
# rkmedia `codec.cc`: extra-data holder and threaded codec engine

A shallow embedding of `src/codec.cc`.

* A `std::shared_ptr<MediaBuffer>` is a `BufPtr β`: `none` is the null
  pointer, `some b` points at the buffer object `b`.
* The virtual methods a concrete codec overrides (`ProcessInput`,
  `ProcessOutput`, `GenEmptyOutPutBuffer`) and `MediaBuffer::IsValid` act on
  a world `W` that holds the codec's private state and the contents of the
  buffer objects; they are the fields of `Transform`.
* `std::list` queues are Lean lists, head = front.
* Undefined behaviour (`front()` of an empty list, `->` on a null pointer) is
  an explicit outcome of the functions that can reach it.
-/

namespace rkmedia

/-! ## Codec: extra data -/

/-- The `Codec` members used by `SetExtraData`: `void *extra_data`
(`none` is `NULL`, `some a` an address) and `size_t extra_data_size`. -/
structure Codec where
  extra_data : Option Nat
  extra_data_size : Nat
  deriving DecidableEq, Repr

/-- The first statement of both `~Codec` and `SetExtraData`:
`if (extra_data) { free(extra_data); extra_data_size = 0; }`.
`freed` is the log of the arguments of `free`, oldest first. The pointer
member itself is not changed. -/
def Codec.release (c : Codec) (freed : List Nat) : Codec × List Nat :=
  match c.extra_data with
  | some p => ({ c with extra_data_size := 0 }, freed ++ [p])
  | none => (c, freed)

/-- The destructor `Codec::~Codec`. -/
def Codec.destroy (c : Codec) (freed : List Nat) : Codec × List Nat :=
  c.release freed

/-- The method `Codec::SetExtraData(data, size, realloc)`. `fresh` is what
`malloc(size)` returns if the call reaches it (`none`: out of memory).
Result: the return value, the members afterwards, the log of frees. -/
def Codec.SetExtraData (c : Codec) (freed : List Nat) (data : Option Nat)
    (size : Nat) (realloc : Bool) (fresh : Option Nat) : Bool × Codec × List Nat :=
  let r := c.release freed
  if !realloc then
    (true, { extra_data := data, extra_data_size := size }, r.2)
  else if data.isNone || size == 0 then
    (false, r.1, r.2)
  else
    match fresh with
    | none => (false, { r.1 with extra_data := none }, r.2)
    | some p => (true, { extra_data := some p, extra_data_size := size }, r.2)

/-- The data-model invariant: `extra_data == null` iff `extra_data_size == 0`. -/
def Codec.Inv (c : Codec) : Prop :=
  c.extra_data = none ↔ c.extra_data_size = 0

/-- One `SetExtraData` call: its arguments and the answer of `malloc`. -/
structure ExtraCall where
  data : Option Nat
  size : Nat
  realloc : Bool
  fresh : Option Nat

/-- A sequence of `SetExtraData` calls on one codec, in order. -/
def Codec.setAll : List ExtraCall → Codec → List Nat → Codec × List Nat
  | [], c, freed => (c, freed)
  | k :: ks, c, freed =>
    let r := c.SetExtraData freed k.data k.size k.realloc k.fresh
    Codec.setAll ks r.2.1 r.2.2

/-- A codec's life: constructed with no extra data, a sequence of
`SetExtraData` calls, then destruction. The result is the log of frees. -/
def Codec.lifetime (ks : List ExtraCall) : List Nat :=
  let r := Codec.setAll ks { extra_data := none, extra_data_size := 0 } []
  (r.1.destroy r.2).2

/-! ## ThreadCodec: queues -/

/-- A `std::shared_ptr<MediaBuffer>`; `none` is `nullptr`. -/
abbrev BufPtr (β : Type) := Option β

/-- The value of `EAGAIN` in `<errno.h>` on Linux. -/
def EAGAIN : Int := 11

/-- The members of `ThreadCodec` shared between the loops and the callers. -/
structure ThreadCodec (β : Type) where
  quit : Bool
  input_list : List (BufPtr β)
  output_list : List (BufPtr β)
  extra_output_list : List (BufPtr β)

/-- The method `ThreadCodec::SendInput`. -/
def ThreadCodec.SendInput {β : Type} (c : ThreadCodec β) (input : BufPtr β) :
    Bool × ThreadCodec β :=
  if !c.quit then
    (true, { c with input_list := c.input_list ++ [input] })
  else
    (false, c)

/-- How a call of `GetElement` ends. -/
inductive Popped (β : Type) where
  /-- It returned `ret`, leaving `list`; `waited` tells whether it went
  through `cond.wait`. -/
  | ret (ret : BufPtr β) (list : List (BufPtr β)) (waited : Bool)
  /-- It is inside `cond.wait` and not woken. -/
  | blocked
  /-- It evaluated `list.front()` on an empty list (undefined behaviour). -/
  | frontOfEmpty

/-- The code of `GetElement` after `cond.wait(_lk)` has returned, on the
list and the quit flag as they are at that moment:
`if (quit) return nullptr;` and then `front()` / `pop_front()`. -/
def GetElementWoken {β : Type} (list : List (BufPtr β)) (quit : Bool) : Popped β :=
  if quit then .ret none list true
  else
    match list with
    | [] => .frontOfEmpty
    | x :: rest => .ret x rest true

/-- The method `ThreadCodec::GetElement(list, mtx, cond, wait)`. `wake` is
what the thread observes when `cond.wait` returns, the list and the quit flag
as the other threads left them; `none` when the wait does not return. -/
def GetElement {β : Type} (list : List (BufPtr β)) (quit : Bool) (wait : Bool)
    (wake : Option (List (BufPtr β) × Bool)) : Popped β :=
  match list with
  | [] =>
    if quit || !wait then .ret none [] false
    else
      match wake with
      | none => .blocked
      | some obs => GetElementWoken obs.1 obs.2
  | x :: rest => .ret x rest false

/-- How a call of `GetOutPut` / `GetExtraPut` ends, with the engine after it. -/
inductive Got (β : Type) where
  | ret (ret : BufPtr β) (c : ThreadCodec β) (waited : Bool)
  | blocked
  | frontOfEmpty

/-- The method `ThreadCodec::GetOutPut(wait)`:
`GetElement(output_list, output_mtx, output_cond, wait)`. -/
def ThreadCodec.GetOutPut {β : Type} (c : ThreadCodec β) (wait : Bool)
    (wake : Option (List (BufPtr β) × Bool)) : Got β :=
  match GetElement c.output_list c.quit wait wake with
  | .ret r l false => .ret r { c with output_list := l } false
  | .ret r l true =>
    .ret r { c with output_list := l, quit := (wake.map Prod.snd).getD c.quit } true
  | .blocked => .blocked
  | .frontOfEmpty => .frontOfEmpty

/-- The method `ThreadCodec::GetExtraPut()`:
`GetElement(extra_output_list, output_mtx, output_cond, false)`. -/
def ThreadCodec.GetExtraPut {β : Type} (c : ThreadCodec β)
    (wake : Option (List (BufPtr β) × Bool)) : Got β :=
  match GetElement c.extra_output_list c.quit false wake with
  | .ret r l false => .ret r { c with extra_output_list := l } false
  | .ret r l true =>
    .ret r { c with extra_output_list := l, quit := (wake.map Prod.snd).getD c.quit } true
  | .blocked => .blocked
  | .frontOfEmpty => .frontOfEmpty

/-- Call `GetOutPut(false)` `n` times in a row; the returned pointers in call
order and the engine afterwards. -/
def ThreadCodec.drainOutput {β : Type} : Nat → ThreadCodec β → List (BufPtr β) × ThreadCodec β
  | 0, c => ([], c)
  | n + 1, c =>
    match c.GetOutPut false none with
    | .ret r c' _ => let d := ThreadCodec.drainOutput n c'; (r :: d.1, d.2)
    | _ => ([], c)

/-- Call `GetExtraPut()` `n` times in a row; the returned pointers in call
order and the engine afterwards. -/
def ThreadCodec.drainExtra {β : Type} : Nat → ThreadCodec β → List (BufPtr β) × ThreadCodec β
  | 0, c => ([], c)
  | n + 1, c =>
    match c.GetExtraPut none with
    | .ret r c' _ => let d := ThreadCodec.drainExtra n c'; (r :: d.1, d.2)
    | _ => ([], c)

/-! ## ThreadCodec: the worker loops -/

/-- The codec-specific operations the loops call, acting on the world `W`
(the codec's own state together with the contents of the buffer objects).
`ProcessInput` and the first argument of `ProcessOutput` receive a non-null
pointer because the loops test it before the call; the second argument of
`ProcessOutput` is passed as obtained. -/
structure Transform (β W : Type) where
  ProcessInput : β → W → Int × W
  ProcessOutput : β → BufPtr β → W → Int × W
  GenEmptyOutPutBuffer : W → BufPtr β × W
  IsValid : β → W → Bool

/-- Where a loop stands after an iteration, or after a run of iterations. -/
inductive Flow where
  /-- The loop goes on with its next iteration (`continue`, or the end of
  the body). -/
  | next
  /-- The loop was left: `break`, or `quit` read as true at the loop head. -/
  | left
  /-- The thread is inside `cond.wait`. -/
  | parked
  /-- Undefined behaviour was reached. -/
  | fault
  deriving DecidableEq, Repr

/-- The output thread: the shared members, the locals `cache_output` and
`cache_extra_output`, and the trace `calls` of the arguments of the
`ProcessOutput` calls made so far. -/
structure OutputState (β : Type) where
  c : ThreadCodec β
  cache_output : BufPtr β
  cache_extra_output : BufPtr β
  calls : List (β × BufPtr β)

/-- The statement `if (cache) x = cache; else x = GenEmptyOutPutBuffer();`:
the pointer obtained and the world afterwards. -/
def cachedOrFresh {β W : Type} (T : Transform β W) (cache : BufPtr β) (w : W) : BufPtr β × W :=
  match cache with
  | some b => (some b, w)
  | none => T.GenEmptyOutPutBuffer w

/-- One iteration of the `while (!quit)` loop of `ThreadCodec::OutputRun`,
entered with `quit` read as false. The world in the result is the one left by
`ProcessOutput`, in which the `IsValid` tests are made. -/
def OutputIter {β W : Type} (T : Transform β W) (s : OutputState β) (w : W) :
    Flow × OutputState β × W :=
  let p := cachedOrFresh T s.cache_output w
  let e := cachedOrFresh T s.cache_extra_output p.2
  match p.1 with
  | none => (.left, s, e.2)
  | some output =>
    let r := T.ProcessOutput output e.1 e.2
    let s1 := { s with calls := s.calls ++ [(output, e.1)] }
    if r.1 ≠ 0 ∧ r.1 ≠ -EAGAIN then
      (.left, s1, r.2)
    else if T.IsValid output r.2 then
      let s2 := { s1 with c := { s1.c with output_list := s1.c.output_list ++ [some output] } }
      match e.1 with
      | none => (.fault, s2, r.2)
      | some extra_output =>
        if T.IsValid extra_output r.2 then
          (.next,
            { s2 with
              c := { s2.c with
                extra_output_list := s2.c.extra_output_list ++ [some extra_output] }
              cache_extra_output := none
              cache_output := none },
            r.2)
        else
          (.next, { s2 with cache_extra_output := some extra_output, cache_output := none }, r.2)
    else
      (.next, { s1 with cache_output := some output }, r.2)

/-- The first `n` iterations of the loop of `ThreadCodec::OutputRun`;
`Flow.next` as result means all `n` were made and the loop is still going. -/
def OutputRun {β W : Type} (T : Transform β W) :
    Nat → OutputState β → W → Flow × OutputState β × W
  | 0, s, w => (.next, s, w)
  | n + 1, s, w =>
    match OutputRun T n s w with
    | (.next, s', w') => if s'.c.quit then (.left, s', w') else OutputIter T s' w'
    | r => r

/-- The output thread as it starts on an engine whose queues are empty:
nothing cached, nothing queued, no call made, not quitting. -/
def OutputState.start (β : Type) : OutputState β :=
  { c := { quit := false, input_list := [], output_list := [], extra_output_list := [] }
    cache_output := none
    cache_extra_output := none
    calls := [] }

/-! ## Scenarios -/

/-- A codec whose `GenEmptyOutPutBuffer` returns buffer 7 on its first call
and null afterwards; the world counts the calls. `ProcessOutput` returns 0
and every buffer is valid. -/
def secondAllocFails : Transform Nat Nat where
  ProcessInput := fun _ w => (0, w)
  ProcessOutput := fun _ _ w => (0, w)
  GenEmptyOutPutBuffer := fun w => (if w = 0 then some 7 else none, w + 1)
  IsValid := fun _ _ => true

/-! ## The busy-retry scenario of the input loop -/

/-- In the iteration that starts from `s` and `w`, the loop obtains a
non-null primary and a non-null extra buffer, and `ProcessOutput` on them
returns 0 or `-EAGAIN` and leaves the primary buffer with `IsValid() = vp`
and the extra buffer with `IsValid() = ve`. -/
def RoundGives {β W : Type} (T : Transform β W) (s : OutputState β) (w : W)
    (vp ve : Bool) : Prop :=
  ∃ o x,
    (cachedOrFresh T s.cache_output w).1 = some o ∧
    (cachedOrFresh T s.cache_extra_output (cachedOrFresh T s.cache_output w).2).1 = some x ∧
    ((T.ProcessOutput o (some x)
        (cachedOrFresh T s.cache_extra_output (cachedOrFresh T s.cache_output w).2).2).1 = 0 ∨
     (T.ProcessOutput o (some x)
        (cachedOrFresh T s.cache_extra_output (cachedOrFresh T s.cache_output w).2).2).1 = -EAGAIN) ∧
    T.IsValid o (T.ProcessOutput o (some x)
        (cachedOrFresh T s.cache_extra_output (cachedOrFresh T s.cache_output w).2).2).2 = vp ∧
    T.IsValid x (T.ProcessOutput o (some x)
        (cachedOrFresh T s.cache_extra_output (cachedOrFresh T s.cache_output w).2).2).2 = ve

/-- A codec whose world is `(next, calls, valid)`: the next fresh buffer
number, the number of `ProcessOutput` calls so far, and the list of the
buffers that are valid. `GenEmptyOutPutBuffer` hands out the buffers
0, 1, 2, ... The first `ProcessOutput` call fills the primary buffer only,
every later call the extra buffer only. -/
def primaryThenExtra : Transform Nat (Nat × Nat × List Nat) where
  ProcessInput := fun _ w => (0, w)
  ProcessOutput := fun o e w =>
    (0, (w.1, w.2.1 + 1, if w.2.1 = 0 then [o] else e.toList))
  GenEmptyOutPutBuffer := fun w => (some w.1, (w.1 + 1, w.2.1, w.2.2))
  IsValid := fun b w => w.2.2.contains b

/-- A codec with the same world as `primaryThenExtra` whose `ProcessOutput`
fills the primary buffer on every call and the extra buffer on every third
call. -/
def extraEveryThird : Transform Nat (Nat × Nat × List Nat) where
  ProcessInput := fun _ w => (0, w)
  ProcessOutput := fun o e w =>
    (0, (w.1, w.2.1 + 1, if (w.2.1 + 1) % 3 = 0 then o :: e.toList else [o]))
  GenEmptyOutPutBuffer := fun w => (some w.1, (w.1 + 1, w.2.1, w.2.2))
  IsValid := fun b w => w.2.2.contains b

/-- A codec whose `GenEmptyOutPutBuffer` hands out the buffers 0, 1, 2, ...
(the world is the next number), whose `ProcessOutput` always returns
`-EAGAIN` and never fills a buffer. -/
def busyOutput : Transform Nat Nat where
  ProcessInput := fun _ w => (0, w)
  ProcessOutput := fun _ _ w => (-EAGAIN, w)
  GenEmptyOutPutBuffer := fun w => (some w, w + 1)
  IsValid := fun _ _ => false

/-- A codec like `busyOutput` whose `ProcessOutput` returns the fatal
status -1. -/
def fatalOutput : Transform Nat Nat where
  ProcessInput := fun _ w => (0, w)
  ProcessOutput := fun _ _ w => (-1, w)
  GenEmptyOutPutBuffer := fun w => (some w, w + 1)
  IsValid := fun _ _ => false

/-! ## Theorems: SendInput and the non-waiting pops -/

/-- C1: `SendInput(b)` returns true exactly when the quit flag is false; when
it returns true the input queue is the old queue with `b` appended at the
tail and nothing else of the engine changes; when it returns false the engine,
its input queue included, is unchanged. -/
theorem SendInput_accepts_iff_not_quit {β : Type} (c : ThreadCodec β) (b : BufPtr β) :
    ((c.SendInput b).1 = true ↔ c.quit = false) ∧
    ((c.SendInput b).1 = true →
      (c.SendInput b).2 = { c with input_list := c.input_list ++ [b] }) ∧
    ((c.SendInput b).1 = false → (c.SendInput b).2 = c) := by
  unfold ThreadCodec.SendInput
  cases hq : c.quit <;> simp

/-- Witness of C1 on a running engine holding one input. -/
theorem SendInput_accepts_iff_not_quit_witness :
    (({ quit := false, input_list := [some 1], output_list := [],
        extra_output_list := [] } : ThreadCodec Nat).SendInput (some 2)).2.input_list
      = [some 1, some 2] :=
  congrArg ThreadCodec.input_list
    ((SendInput_accepts_iff_not_quit
      ({ quit := false, input_list := [some 1], output_list := [],
         extra_output_list := [] } : ThreadCodec Nat) (some 2)).2.1 rfl)

theorem drainOutput_all {β : Type} (l : List (BufPtr β)) (c : ThreadCodec β)
    (h : c.output_list = l) :
    c.drainOutput l.length = (l, { c with output_list := [] }) := by
  induction l generalizing c with
  | nil =>
    cases c
    simp only [] at h
    subst h
    rfl
  | cons x rest ih =>
    have step : c.GetOutPut false none = .ret x { c with output_list := rest } false := by
      simp [ThreadCodec.GetOutPut, GetElement, h]
    simp only [List.length_cons, ThreadCodec.drainOutput, step]
    rw [ih { c with output_list := rest } rfl]

theorem drainExtra_all {β : Type} (l : List (BufPtr β)) (c : ThreadCodec β)
    (h : c.extra_output_list = l) :
    c.drainExtra l.length = (l, { c with extra_output_list := [] }) := by
  induction l generalizing c with
  | nil =>
    cases c
    simp only [] at h
    subst h
    rfl
  | cons x rest ih =>
    have step : c.GetExtraPut none = .ret x { c with extra_output_list := rest } false := by
      simp [ThreadCodec.GetExtraPut, GetElement, h]
    simp only [List.length_cons, ThreadCodec.drainExtra, step]
    rw [ih { c with extra_output_list := rest } rfl]

/-- C5: on an engine that is not quitting, `GetOutPut(false)` and
`GetExtraPut()` return without waiting, whatever a wake-up would have shown.
On a non-empty queue each returns the front of its own queue and leaves the
rest of that queue in order and everything else untouched; on an empty queue
each returns null and leaves the engine unchanged. Calling either as many
times as its queue is long returns the queue front to back. -/
theorem GetOutPut_GetExtraPut_nowait_fifo {β : Type} (c : ThreadCodec β)
    (wake : Option (List (BufPtr β) × Bool)) (hq : c.quit = false) :
    (∀ x rest, c.output_list = x :: rest →
      c.GetOutPut false wake = .ret x { c with output_list := rest } false) ∧
    (c.output_list = [] → c.GetOutPut false wake = .ret none c false) ∧
    (∀ x rest, c.extra_output_list = x :: rest →
      c.GetExtraPut wake = .ret x { c with extra_output_list := rest } false) ∧
    (c.extra_output_list = [] → c.GetExtraPut wake = .ret none c false) ∧
    (c.drainOutput c.output_list.length).1 = c.output_list ∧
    (c.drainExtra c.extra_output_list.length).1 = c.extra_output_list := by
  refine ⟨?_, ?_, ?_, ?_, ?_, ?_⟩
  · intro x rest h
    simp [ThreadCodec.GetOutPut, GetElement, h]
  · intro h
    cases c
    simp only [] at h hq
    subst h
    subst hq
    simp [ThreadCodec.GetOutPut, GetElement]
  · intro x rest h
    simp [ThreadCodec.GetExtraPut, GetElement, h]
  · intro h
    cases c
    simp only [] at h hq
    subst h
    subst hq
    simp [ThreadCodec.GetExtraPut, GetElement]
  · rw [drainOutput_all c.output_list c rfl]
  · rw [drainExtra_all c.extra_output_list c rfl]

/-- Witness of C5: two queued outputs and one queued extra output. -/
theorem GetOutPut_GetExtraPut_nowait_fifo_witness :
    (({ quit := false, input_list := [], output_list := [some 1, some 2],
        extra_output_list := [some 9] } : ThreadCodec Nat).drainOutput 2).1
      = [some 1, some 2] :=
  (GetOutPut_GetExtraPut_nowait_fifo
    ({ quit := false, input_list := [], output_list := [some 1, some 2],
       extra_output_list := [some 9] } : ThreadCodec Nat) none rfl).2.2.2.2.1

/-- C10 (the code departs from it): `GetElement` called with `wait = true` on
an empty list while not quitting, and woken with the list still empty and
quit still false, goes on to `list.front()` on the empty list. On the other
wake-ups it behaves as claimed: with quit set it returns null and leaves the
list alone, with a non-empty list it returns the head and removes it. -/
theorem GetElement_wakeup_on_empty_reads_front :
    GetElement ([] : List (BufPtr Nat)) false true (some ([], false)) = .frontOfEmpty ∧
    (∀ l : List (BufPtr Nat), GetElement [] false true (some (l, true)) = .ret none l true) ∧
    (∀ (x : BufPtr Nat) (rest : List (BufPtr Nat)),
      GetElement [] false true (some (x :: rest, false)) = .ret x rest true) := by
  refine ⟨rfl, ?_, ?_⟩
  · intro l
    rfl
  · intro x rest
    rfl

/-! ## Theorems: extra data -/

/-- C6 as stated fails: on a codec holding no extra data (invariant true),
`SetExtraData(NULL, 5, false)` stores the null pointer with size 5. -/
theorem SetExtraData_transfer_breaks_inv :
    Codec.Inv { extra_data := none, extra_data_size := 0 } ∧
    ¬ Codec.Inv
      (Codec.SetExtraData { extra_data := none, extra_data_size := 0 } [] none 5 false none).2.1 := by
  constructor
  · simp [Codec.Inv]
  · simp [Codec.Inv, Codec.SetExtraData, Codec.release]

/-- C6 amended: `SetExtraData` preserves the invariant for every call in
transfer mode whose arguments agree with it (`data` null iff `size` 0), and
for every call in copy mode made while no blob is held or with non-null
`data` and non-zero `size` (whether `malloc` succeeds or not). -/
theorem SetExtraData_preserves_inv (c : Codec) (freed : List Nat) (data : Option Nat)
    (size : Nat) (realloc : Bool) (fresh : Option Nat) (hinv : c.Inv)
    (htransfer : realloc = false → (data = none ↔ size = 0))
    (hcopy : realloc = true → c.extra_data = none ∨ (data ≠ none ∧ size ≠ 0)) :
    (c.SetExtraData freed data size realloc fresh).2.1.Inv := by
  obtain ⟨p, n⟩ := c
  cases realloc with
  | false =>
    simpa [Codec.SetExtraData, Codec.Inv] using htransfer rfl
  | true =>
    have hc := hcopy rfl
    simp only [Codec.Inv] at hinv hc
    cases p with
    | none =>
      have hn : n = 0 := hinv.mp rfl
      subst hn
      cases data <;> cases fresh <;>
        by_cases hs : size = 0 <;> simp [Codec.SetExtraData, Codec.release, Codec.Inv, hs]
    | some q =>
      rcases hc with hc | ⟨hd, hs⟩
      · exact absurd hc (by simp)
      · cases data with
        | none => exact absurd rfl hd
        | some d =>
          cases fresh <;> simp [Codec.SetExtraData, Codec.release, Codec.Inv, hs]

/-- Witness of the amended C6: a held blob replaced by a copy. -/
theorem SetExtraData_preserves_inv_witness :
    Codec.Inv { extra_data := some 1, extra_data_size := 4 } ∧
    Codec.Inv
      (Codec.SetExtraData { extra_data := some 1, extra_data_size := 4 } []
        (some 2) 8 true (some 3)).2.1 :=
  ⟨by simp [Codec.Inv],
   SetExtraData_preserves_inv { extra_data := some 1, extra_data_size := 4 } []
    (some 2) 8 true (some 3) (by simp [Codec.Inv]) (by simp) (by simp)⟩

/-- C7 (the code departs from it): a blob at address 1 handed over in
transfer mode, then `SetExtraData(NULL, 0, true)`, which frees the blob,
returns false and leaves `extra_data` pointing at it, then destruction:
address 1 is passed to `free` twice. -/
theorem SetExtraData_failed_copy_double_free :
    (Codec.SetExtraData { extra_data := some 1, extra_data_size := 4 } [] none 0 true none)
      = (false, { extra_data := some 1, extra_data_size := 0 }, [1]) ∧
    Codec.lifetime
      [{ data := some 1, size := 4, realloc := false, fresh := none },
       { data := none, size := 0, realloc := true, fresh := none }] = [1, 1] := by
  constructor <;> rfl

/-! ## Theorems: the output loop, null buffers -/

theorem OutputIter_null_primary_leaves {β W : Type} (T : Transform β W) (s : OutputState β)
    (w : W) (h : (cachedOrFresh T s.cache_output w).1 = none) :
    (OutputIter T s w).1 = Flow.left ∧ (OutputIter T s w).2.1 = s := by
  unfold OutputIter
  simp [h]

/-- C9 (the code departs from it): with nothing cached, a non-null primary
buffer and a null extra buffer from `GenEmptyOutPutBuffer`, the iteration
does call `ProcessOutput`, with the null extra pointer, appends the primary
buffer to the output queue and then applies `IsValid` to the null pointer. -/
theorem OutputIter_null_extra_is_processed :
    (OutputIter secondAllocFails (OutputState.start Nat) 0).1 = Flow.fault ∧
    (OutputIter secondAllocFails (OutputState.start Nat) 0).2.1.calls = [(7, none)] ∧
    (OutputIter secondAllocFails (OutputState.start Nat) 0).2.1.c.output_list = [some 7] := by
  refine ⟨?_, ?_, ?_⟩ <;> rfl

/-! ## Theorems: the input loop -/

theorem OutputIter_of_round {β W : Type} (T : Transform β W) (s : OutputState β) (w : W)
    (vp ve : Bool) (h : RoundGives T s w vp ve) :
    ∃ o x w',
      (s.cache_output = none ∨ s.cache_output = some o) ∧
      (s.cache_extra_output = none ∨ s.cache_extra_output = some x) ∧
      T.IsValid o w' = vp ∧ T.IsValid x w' = ve ∧
      OutputIter T s w =
        (Flow.next,
          { c := { s.c with
                   output_list :=
                     if vp then s.c.output_list ++ [some o] else s.c.output_list
                   extra_output_list :=
                     if vp && ve then s.c.extra_output_list ++ [some x]
                     else s.c.extra_output_list }
            cache_output := if vp then none else some o
            cache_extra_output :=
              if vp then (if ve then none else some x) else s.cache_extra_output
            calls := s.calls ++ [(o, some x)] },
          w') := by
  obtain ⟨o, x, ho, hx, hret, hvp, hve⟩ := h
  refine ⟨o, x, _, ?_, ?_, hvp, hve, ?_⟩
  · cases hc : s.cache_output with
    | none => exact Or.inl rfl
    | some b =>
      rw [hc] at ho
      simp only [cachedOrFresh] at ho
      exact Or.inr ho
  · cases hc : s.cache_extra_output with
    | none => exact Or.inl rfl
    | some b =>
      rw [hc] at hx
      simp only [cachedOrFresh] at hx
      exact Or.inr hx
  · have hnf : ¬ ((T.ProcessOutput o (some x)
        (cachedOrFresh T s.cache_extra_output (cachedOrFresh T s.cache_output w).2).2).1 ≠ 0 ∧
        (T.ProcessOutput o (some x)
          (cachedOrFresh T s.cache_extra_output (cachedOrFresh T s.cache_output w).2).2).1 ≠ -EAGAIN) := by
      rcases hret with h0 | h1
      · simp [h0]
      · simp [h1]
    unfold OutputIter
    simp only [ho, hx, hnf, if_false, hvp, hve]
    cases vp <;> cases ve <;> simp

theorem OutputRun_succ_of_next {β W : Type} (T : Transform β W) (n : Nat)
    (s : OutputState β) (w : W) (hf : (OutputRun T n s w).1 = Flow.next)
    (hq : (OutputRun T n s w).2.1.c.quit = false) :
    OutputRun T (n + 1) s w =
      OutputIter T (OutputRun T n s w).2.1 (OutputRun T n s w).2.2 := by
  simp only [OutputRun]
  generalize OutputRun T n s w = a at hf hq
  obtain ⟨f, s', w'⟩ := a
  simp only [] at hf hq
  subst hf
  simp [hq]

/-- C3 as stated fails: with `primaryThenExtra`, round 1 leaves the primary
buffer valid and the extra buffer invalid, round 2 leaves the primary buffer
invalid and the extra buffer valid, and after round 2 the output queue holds
one buffer but the extra-output queue holds none. -/
theorem OutputRun_round2_extra_not_queued :
    RoundGives primaryThenExtra (OutputState.start Nat) (0, 0, []) true false ∧
    RoundGives primaryThenExtra
      (OutputRun primaryThenExtra 1 (OutputState.start Nat) (0, 0, [])).2.1
      (OutputRun primaryThenExtra 1 (OutputState.start Nat) (0, 0, [])).2.2 false true ∧
    (OutputRun primaryThenExtra 2 (OutputState.start Nat) (0, 0, [])).2.1.c.output_list
      = [some 0] ∧
    ¬ ((OutputRun primaryThenExtra 2 (OutputState.start Nat)
        (0, 0, [])).2.1.c.extra_output_list.length = 1) := by
  refine ⟨⟨0, 1, rfl, rfl, Or.inl rfl, rfl, rfl⟩, ⟨2, 1, rfl, rfl, Or.inl rfl, rfl, rfl⟩,
    rfl, ?_⟩
  decide

/-- C3 amended: from empty caches and queues, if round 1 leaves the primary
buffer valid and the extra buffer invalid and round 2 leaves the primary
buffer invalid and the extra buffer valid (both with a non-fatal status),
then after round 2 the loop is still going, the output queue holds exactly
the round-1 primary, the extra-output queue is empty, the extra buffer (the
same one in both calls, now valid) is in the extra cache and the invalid
round-2 primary in the primary cache. If round 3 then leaves both buffers
valid, the output queue holds the two primaries and the extra-output queue
holds exactly that extra buffer. -/
theorem OutputRun_partial_fill_caches_extra {β W : Type} (T : Transform β W) (w : W)
    (h1 : RoundGives T (OutputState.start β) w true false)
    (h2 : RoundGives T (OutputRun T 1 (OutputState.start β) w).2.1
      (OutputRun T 1 (OutputState.start β) w).2.2 false true) :
    ∃ o1 o2 x,
      (OutputRun T 2 (OutputState.start β) w).1 = Flow.next ∧
      (OutputRun T 2 (OutputState.start β) w).2.1.calls = [(o1, some x), (o2, some x)] ∧
      (OutputRun T 2 (OutputState.start β) w).2.1.c.output_list = [some o1] ∧
      (OutputRun T 2 (OutputState.start β) w).2.1.c.extra_output_list = [] ∧
      (OutputRun T 2 (OutputState.start β) w).2.1.cache_extra_output = some x ∧
      T.IsValid x (OutputRun T 2 (OutputState.start β) w).2.2 = true ∧
      (OutputRun T 2 (OutputState.start β) w).2.1.cache_output = some o2 ∧
      T.IsValid o2 (OutputRun T 2 (OutputState.start β) w).2.2 = false ∧
      (RoundGives T (OutputRun T 2 (OutputState.start β) w).2.1
          (OutputRun T 2 (OutputState.start β) w).2.2 true true →
        (OutputRun T 3 (OutputState.start β) w).2.1.c.output_list = [some o1, some o2] ∧
        (OutputRun T 3 (OutputState.start β) w).2.1.c.extra_output_list = [some x]) := by
  have e1 : OutputRun T 1 (OutputState.start β) w = OutputIter T (OutputState.start β) w :=
    OutputRun_succ_of_next T 0 _ w rfl rfl
  obtain ⟨o1, x, w1, -, -, -, -, hit1⟩ := OutputIter_of_round T _ w _ _ h1
  rw [e1, hit1] at h2
  obtain ⟨o2, x2, w2, -, hcx, hv2, hx2, hit2⟩ := OutputIter_of_round T _ w1 _ _ h2
  have hx : x2 = x := by
    simp only [Bool.false_eq_true, if_false, if_true] at hcx
    rcases hcx with h | h
    · exact absurd h (by simp)
    · exact (Option.some.inj h).symm
  subst hx
  have e2 : OutputRun T 2 (OutputState.start β) w =
      OutputIter T (OutputRun T 1 (OutputState.start β) w).2.1
        (OutputRun T 1 (OutputState.start β) w).2.2 :=
    OutputRun_succ_of_next T 1 _ w (by rw [e1, hit1]) (by rw [e1, hit1]; rfl)
  rw [e1, hit1, hit2] at e2
  refine ⟨o1, o2, x2, ?_, ?_, ?_, ?_, ?_, ?_, ?_, ?_, ?_⟩
  · rw [e2]
  · rw [e2]; simp [OutputState.start]
  · rw [e2]; simp [OutputState.start]
  · rw [e2]; simp [OutputState.start]
  · rw [e2]; simp
  · rw [e2]; exact hx2
  · rw [e2]; simp
  · rw [e2]; exact hv2
  · intro h3
    have e3 : OutputRun T 3 (OutputState.start β) w =
        OutputIter T (OutputRun T 2 (OutputState.start β) w).2.1
          (OutputRun T 2 (OutputState.start β) w).2.2 :=
      OutputRun_succ_of_next T 2 _ w (by rw [e2]) (by rw [e2]; rfl)
    rw [e2] at h3 e3
    obtain ⟨o3, x3, w3, hc3, hcx3, -, -, hit3⟩ := OutputIter_of_round T _ w2 _ _ h3
    have ho : o3 = o2 := by
      simp only [Bool.false_eq_true, if_false, if_true] at hc3
      rcases hc3 with h | h
      · exact absurd h (by simp)
      · exact (Option.some.inj h).symm
    have hx : x3 = x2 := by
      simp only [Bool.false_eq_true, if_false, if_true] at hcx3
      rcases hcx3 with h | h
      · exact absurd h (by simp)
      · exact (Option.some.inj h).symm
    subst ho
    subst hx
    rw [e3, hit3]
    simp [OutputState.start]

/-- Witness of the amended C3, on `primaryThenExtra`: after round 2 the
extra-output queue is empty. -/
theorem OutputRun_partial_fill_caches_extra_witness :
    ∃ o1 o2 x : Nat,
      (OutputRun primaryThenExtra 2 (OutputState.start Nat) (0, 0, [])).2.1.calls
        = [(o1, some x), (o2, some x)] ∧
      (OutputRun primaryThenExtra 2 (OutputState.start Nat) (0, 0, [])).2.1.c.extra_output_list
        = [] :=
  match OutputRun_partial_fill_caches_extra primaryThenExtra (0, 0, [])
      ⟨0, 1, rfl, rfl, Or.inl rfl, rfl, rfl⟩ ⟨2, 1, rfl, rfl, Or.inl rfl, rfl, rfl⟩ with
  | ⟨o1, o2, x, h⟩ => ⟨o1, o2, x, h.2.1, h.2.2.2.1⟩

theorem OutputRun_every_third_inv {β W : Type} (T : Transform β W) (w : W) :
    ∀ n : Nat,
      (∀ j, j < n →
        RoundGives T (OutputRun T j (OutputState.start β) w).2.1
          (OutputRun T j (OutputState.start β) w).2.2 true (decide ((j + 1) % 3 = 0))) →
      (OutputRun T n (OutputState.start β) w).1 = Flow.next ∧
      (OutputRun T n (OutputState.start β) w).2.1.c.quit = false ∧
      (OutputRun T n (OutputState.start β) w).2.1.cache_output = none ∧
      (OutputRun T n (OutputState.start β) w).2.1.c.output_list.length = n ∧
      (OutputRun T n (OutputState.start β) w).2.1.c.extra_output_list.length = n / 3 ∧
      (OutputRun T n (OutputState.start β) w).2.1.calls.length = n ∧
      (∀ i, i + 1 < n → (i + 1) % 3 ≠ 0 →
        ((OutputRun T n (OutputState.start β) w).2.1.calls[i + 1]?).map Prod.snd =
          ((OutputRun T n (OutputState.start β) w).2.1.calls[i]?).map Prod.snd) ∧
      (n % 3 ≠ 0 → ∃ x,
        (OutputRun T n (OutputState.start β) w).2.1.cache_extra_output = some x ∧
        ((OutputRun T n (OutputState.start β) w).2.1.calls[n - 1]?).map Prod.snd
          = some (some x)) ∧
      (n % 3 = 0 → (OutputRun T n (OutputState.start β) w).2.1.cache_extra_output = none) := by
  intro n
  induction n with
  | zero =>
    intro _
    simp [OutputRun, OutputState.start]
  | succ n ih =>
    intro h
    obtain ⟨hf, hq, hco, hlo, hle, hlc, hadj, hcached, hnone⟩ :=
      ih (fun j hj => h j (Nat.lt_succ_of_lt hj))
    have hr := h n (Nat.lt_succ_self n)
    obtain ⟨o, x, w', -, hcx, -, -, hit⟩ := OutputIter_of_round T _ _ _ _ hr
    have e := OutputRun_succ_of_next T n _ w hf hq
    rw [hit] at e
    generalize OutputRun T n (OutputState.start β) w = a at *
    obtain ⟨f, s, w0⟩ := a
    simp only [] at hf hq hco hlo hle hlc hadj hcached hnone hcx e
    rw [e]
    simp only [if_true, Bool.true_and]
    refine ⟨?_, hq, ?_, ?_, ?_, ?_, ?_, ?_, ?_⟩
    · trivial
    · trivial
    · simp [hlo]
    · by_cases h3 : (n + 1) % 3 = 0
      · simp only [h3, decide_True, if_true, List.length_append, List.length_singleton, hle]
        omega
      · simp only [h3, decide_False, Bool.false_eq_true, if_false, hle]
        omega
    · simp [hlc]
    · intro i hi hm
      by_cases hin : i + 1 < n
      · rw [List.getElem?_append_left (show i + 1 < s.calls.length by omega),
          List.getElem?_append_left (show i < s.calls.length by omega)]
        exact hadj i hin hm
      · have hi1 : i + 1 = s.calls.length := by omega
        have hnm : n % 3 ≠ 0 := by omega
        obtain ⟨x', hx', hlast⟩ := hcached hnm
        have hxx : x = x' := by
          rw [hx'] at hcx
          rcases hcx with hh | hh
          · exact absurd hh (by simp)
          · exact (Option.some.inj hh).symm
        have hni : n - 1 = i := by omega
        rw [hni] at hlast
        rw [List.getElem?_append_left (show i < s.calls.length by omega), hlast, hi1,
          List.getElem?_concat_length]
        simp [hxx]
    · intro hm
      have h3 : ¬ (n + 1) % 3 = 0 := hm
      refine ⟨x, ?_, ?_⟩
      · simp [h3]
      · have hlen : n + 1 - 1 = s.calls.length := by omega
        rw [hlen, List.getElem?_concat_length]
        rfl
    · intro hm
      simp [hm]

/-- C4: from empty caches and queues, if in each of the first `n` iterations
`ProcessOutput` returns a non-fatal status, leaves the primary buffer valid
and leaves the extra buffer valid exactly in every third iteration, then
after the `n` iterations the loop is still going, the output queue holds `n`
buffers and the extra-output queue `n / 3`; `n` calls were made, and a call
that is not the first of its group of three got the same extra buffer as the
call before it. After a number of iterations that is not a multiple of three
the extra buffer of the last call is in the extra cache (so it is reused, not
requested afresh); after a multiple of three the extra cache is empty. -/
theorem OutputRun_extra_every_third {β W : Type} (T : Transform β W) (w : W) (n : Nat)
    (h : ∀ j, j < n →
      RoundGives T (OutputRun T j (OutputState.start β) w).2.1
        (OutputRun T j (OutputState.start β) w).2.2 true (decide ((j + 1) % 3 = 0))) :
    (OutputRun T n (OutputState.start β) w).1 = Flow.next ∧
    (OutputRun T n (OutputState.start β) w).2.1.c.output_list.length = n ∧
    (OutputRun T n (OutputState.start β) w).2.1.c.extra_output_list.length = n / 3 ∧
    (OutputRun T n (OutputState.start β) w).2.1.calls.length = n ∧
    (∀ i, i + 1 < n → (i + 1) % 3 ≠ 0 →
      ((OutputRun T n (OutputState.start β) w).2.1.calls[i + 1]?).map Prod.snd =
        ((OutputRun T n (OutputState.start β) w).2.1.calls[i]?).map Prod.snd) ∧
    (n % 3 ≠ 0 → ∃ x,
      (OutputRun T n (OutputState.start β) w).2.1.cache_extra_output = some x ∧
      ((OutputRun T n (OutputState.start β) w).2.1.calls[n - 1]?).map Prod.snd
        = some (some x)) ∧
    (n % 3 = 0 → (OutputRun T n (OutputState.start β) w).2.1.cache_extra_output = none) := by
  obtain ⟨hf, -, -, hlo, hle, hlc, hadj, hcached, hnone⟩ := OutputRun_every_third_inv T w n h
  exact ⟨hf, hlo, hle, hlc, hadj, hcached, hnone⟩

/-- Witness of C4: three iterations of `extraEveryThird` give three primary
outputs and one extra output. -/
theorem OutputRun_extra_every_third_witness :
    (OutputRun extraEveryThird 3 (OutputState.start Nat) (0, 0, [])).2.1.c.output_list.length
      = 3 ∧
    (OutputRun extraEveryThird 3
      (OutputState.start Nat) (0, 0, [])).2.1.c.extra_output_list.length = 1 :=
  have h := OutputRun_extra_every_third extraEveryThird (0, 0, []) 3 (by
    intro j hj
    interval_cases j
    · exact ⟨0, 1, rfl, rfl, Or.inl rfl, rfl, rfl⟩
    · exact ⟨2, 1, rfl, rfl, Or.inl rfl, rfl, rfl⟩
    · exact ⟨3, 1, rfl, rfl, Or.inl rfl, rfl, rfl⟩)
  ⟨h.2.1, h.2.2.1⟩

theorem OutputIter_appends_valid {β W : Type} (T : Transform β W) (s : OutputState β) (w : W) :
    ∃ outs extras : List β,
      (OutputIter T s w).2.1.c.output_list = s.c.output_list ++ outs.map some ∧
      (OutputIter T s w).2.1.c.extra_output_list = s.c.extra_output_list ++ extras.map some ∧
      (∀ b ∈ outs, T.IsValid b (OutputIter T s w).2.2 = true) ∧
      (∀ b ∈ extras, T.IsValid b (OutputIter T s w).2.2 = true) := by
  unfold OutputIter
  simp only []
  split
  · exact ⟨[], [], by simp⟩
  · rename_i output _
    split
    · exact ⟨[], [], by simp⟩
    · split
      · rename_i hv
        split
        · exact ⟨[output], [], by simp [hv]⟩
        · rename_i extra_output _
          split
          · rename_i hx
            exact ⟨[output], [extra_output], by simp [hv, hx]⟩
          · exact ⟨[output], [], by simp [hv]⟩
      · exact ⟨[], [], by simp⟩

theorem OutputIter_invalid_primary {β W : Type} (T : Transform β W) (s : OutputState β)
    (w : W) (o : β) (e : BufPtr β)
    (hc : (OutputIter T s w).2.1.calls = s.calls ++ [(o, e)])
    (hv : T.IsValid o (OutputIter T s w).2.2 = false) :
    (OutputIter T s w).2.1.c = s.c ∧
    ((OutputIter T s w).1 = Flow.next → (OutputIter T s w).2.1.cache_output = some o) := by
  unfold OutputIter at hc hv ⊢
  simp only [] at hc hv ⊢
  generalize cachedOrFresh T s.cache_output w = p at hc hv ⊢
  obtain ⟨po, pw⟩ := p
  simp only [] at hc hv ⊢
  generalize cachedOrFresh T s.cache_extra_output pw = q at hc hv ⊢
  obtain ⟨qo, qw⟩ := q
  simp only [] at hc hv ⊢
  cases po with
  | none => simp at hc
  | some output =>
    simp only [] at hc hv ⊢
    generalize T.ProcessOutput output qo qw = r at hc hv ⊢
    obtain ⟨ret, w3⟩ := r
    simp only [] at hc hv ⊢
    by_cases hfatal : ret ≠ 0 ∧ ret ≠ -EAGAIN
    · simp [hfatal]
    · simp only [hfatal, if_false] at hc hv ⊢
      cases hvalid : T.IsValid output w3 with
      | false =>
        simp only [hvalid, Bool.false_eq_true, if_false, List.append_cancel_left_eq,
          List.cons.injEq, Prod.mk.injEq, and_true] at hc hv ⊢
        simp [hc.1]
      | true =>
        simp only [hvalid, if_true] at hc hv ⊢
        cases qo with
        | none =>
          simp only [List.append_cancel_left_eq, List.cons.injEq, Prod.mk.injEq,
            and_true] at hc hv
          rw [← hc.1, hvalid] at hv
          exact absurd hv (by simp)
        | some extra_output =>
          simp only [] at hc hv
          cases hxv : T.IsValid extra_output w3 <;>
            simp only [hxv, if_true, Bool.false_eq_true, if_false, List.append_cancel_left_eq,
              List.cons.injEq, Prod.mk.injEq, and_true] at hc hv <;>
            rw [← hc.1, hvalid] at hv <;>
            exact absurd hv (by simp)

theorem OutputIter_reuses_cached {β W : Type} (T : Transform β W) (s : OutputState β)
    (w : W) (o : β) (hc : s.cache_output = some o) :
    ∃ e, (OutputIter T s w).2.1.calls = s.calls ++ [(o, e)] := by
  refine ⟨(cachedOrFresh T s.cache_extra_output w).1, ?_⟩
  unfold OutputIter
  simp only [hc, cachedOrFresh]
  split
  · rfl
  · split
    · split
      · rfl
      · split <;> rfl
    · rfl

theorem OutputIter_call_args {β W : Type} (T : Transform β W) (s : OutputState β)
    (w : W) (o : β) (e : BufPtr β)
    (hc : (OutputIter T s w).2.1.calls = s.calls ++ [(o, e)]) :
    (cachedOrFresh T s.cache_output w).1 = some o ∧
    (cachedOrFresh T s.cache_extra_output (cachedOrFresh T s.cache_output w).2).1 = e := by
  unfold OutputIter at hc
  simp only [] at hc
  generalize cachedOrFresh T s.cache_output w = p at hc ⊢
  obtain ⟨po, pw⟩ := p
  simp only [] at hc ⊢
  generalize cachedOrFresh T s.cache_extra_output pw = q at hc ⊢
  obtain ⟨qo, qw⟩ := q
  simp only [] at hc ⊢
  cases po with
  | none => simp at hc
  | some output =>
    simp only [] at hc
    have hcalls : s.calls ++ [(output, qo)] = s.calls ++ [(o, e)] := by
      rw [← hc]
      split
      · rfl
      · split
        · split
          · rfl
          · split <;> rfl
        · rfl
    simp only [List.append_cancel_left_eq, List.cons.injEq, Prod.mk.injEq, and_true] at hcalls
    exact ⟨congrArg some hcalls.1, hcalls.2⟩

theorem OutputIter_nonfatal_invalid_next {β W : Type} (T : Transform β W)
    (s : OutputState β) (w : W) (o : β) (e : BufPtr β)
    (hc : (OutputIter T s w).2.1.calls = s.calls ++ [(o, e)])
    (hst : (T.ProcessOutput o e
        (cachedOrFresh T s.cache_extra_output (cachedOrFresh T s.cache_output w).2).2).1 = 0 ∨
      (T.ProcessOutput o e
        (cachedOrFresh T s.cache_extra_output (cachedOrFresh T s.cache_output w).2).2).1
          = -EAGAIN)
    (hv : T.IsValid o (OutputIter T s w).2.2 = false) :
    (OutputIter T s w).1 = Flow.next := by
  obtain ⟨hp, he⟩ := OutputIter_call_args T s w o e hc
  have hnf : ¬ ((T.ProcessOutput o e
      (cachedOrFresh T s.cache_extra_output (cachedOrFresh T s.cache_output w).2).2).1 ≠ 0 ∧
      (T.ProcessOutput o e
        (cachedOrFresh T s.cache_extra_output (cachedOrFresh T s.cache_output w).2).2).1
          ≠ -EAGAIN) := by
    rcases hst with h0 | h1
    · simp [h0]
    · simp [h1]
  unfold OutputIter at hv ⊢
  simp only [hp, he, hnf, if_false] at hv ⊢
  cases hvalid : T.IsValid o (T.ProcessOutput o e
      (cachedOrFresh T s.cache_extra_output (cachedOrFresh T s.cache_output w).2).2).2 with
  | false => simp
  | true =>
    simp only [hvalid, if_true] at hv
    cases e with
    | none =>
      simp only [] at hv
      rw [hvalid] at hv
      exact absurd hv (by simp)
    | some x =>
      simp only [] at hv
      split at hv <;> (rw [hvalid] at hv; exact absurd hv (by simp))

theorem OutputIter_fatal_left {β W : Type} (T : Transform β W)
    (s : OutputState β) (w : W) (o : β) (e : BufPtr β)
    (hc : (OutputIter T s w).2.1.calls = s.calls ++ [(o, e)])
    (hst : ¬ ((T.ProcessOutput o e
        (cachedOrFresh T s.cache_extra_output (cachedOrFresh T s.cache_output w).2).2).1 = 0 ∨
      (T.ProcessOutput o e
        (cachedOrFresh T s.cache_extra_output (cachedOrFresh T s.cache_output w).2).2).1
          = -EAGAIN)) :
    (OutputIter T s w).1 = Flow.left := by
  obtain ⟨hp, he⟩ := OutputIter_call_args T s w o e hc
  have hf : (T.ProcessOutput o e
      (cachedOrFresh T s.cache_extra_output (cachedOrFresh T s.cache_output w).2).2).1 ≠ 0 ∧
      (T.ProcessOutput o e
        (cachedOrFresh T s.cache_extra_output (cachedOrFresh T s.cache_output w).2).2).1
          ≠ -EAGAIN := by
    constructor
    · intro h
      exact hst (Or.inl h)
    · intro h
      exact hst (Or.inr h)
  unfold OutputIter
  simp only [hp, he]
  rw [if_pos hf]

theorem OutputRun_succ_stuck {β W : Type} (T : Transform β W) (n : Nat)
    (s : OutputState β) (w : W)
    (h : ¬ ((OutputRun T n s w).1 = Flow.next ∧ (OutputRun T n s w).2.1.c.quit = false)) :
    (OutputRun T (n + 1) s w).2 = (OutputRun T n s w).2 := by
  simp only [OutputRun]
  generalize OutputRun T n s w = a at h
  obtain ⟨f, s', w'⟩ := a
  simp only [] at h
  cases f with
  | next =>
    cases hq : s'.c.quit with
    | false => exact absurd ⟨rfl, hq⟩ h
    | true => simp [hq]
  | left => rfl
  | parked => rfl
  | fault => rfl

/-- C8 as stated fails: with `fatalOutput` the first iteration calls
`ProcessOutput` with the fresh primary buffer 0, which is not valid
afterwards; the status is fatal, so the loop is left with nothing in the
primary cache and no later iteration passes buffer 0 again. -/
theorem OutputRun_fatal_invalid_primary_not_cached :
    (OutputRun fatalOutput 1 (OutputState.start Nat) 0).2.1.calls
      = (OutputRun fatalOutput 0 (OutputState.start Nat) 0).2.1.calls ++ [(0, some 1)] ∧
    fatalOutput.IsValid 0 (OutputRun fatalOutput 1 (OutputState.start Nat) 0).2.2 = false ∧
    (OutputRun fatalOutput 1 (OutputState.start Nat) 0).1 = Flow.left ∧
    (OutputRun fatalOutput 1 (OutputState.start Nat) 0).2.1.cache_output = none ∧
    (OutputRun fatalOutput 2 (OutputState.start Nat) 0).2.1.calls
      = (OutputRun fatalOutput 1 (OutputState.start Nat) 0).2.1.calls := by
  refine ⟨?_, ?_, ?_, ?_, ?_⟩ <;> rfl

/-- C8 amended: for every codec, start state and `n`, consider iteration
`n + 1` of the output loop. What it appends to the output queue and to the
extra-output queue are buffers for which `IsValid` holds in the world left by
its `ProcessOutput` call, in which they are appended. If it called
`ProcessOutput` with primary buffer `o` and extra pointer `e`:
when `o` is not valid afterwards, both queues (all shared members) are
unchanged; when moreover the status returned is 0 or `-EAGAIN`, the loop goes
on, `o` is in the primary cache, obtaining the next primary buffer returns
`o` and leaves the world untouched (no `GenEmptyOutPutBuffer` call for it),
and iteration `n + 2` calls `ProcessOutput` with `o` again; when the status
is any other value the loop is left. -/
theorem OutputRun_appends_valid_retries_nonfatal {β W : Type} (T : Transform β W)
    (s0 : OutputState β) (w0 : W) (n : Nat) :
    (∃ outs extras : List β,
      (OutputRun T (n + 1) s0 w0).2.1.c.output_list
        = (OutputRun T n s0 w0).2.1.c.output_list ++ outs.map some ∧
      (OutputRun T (n + 1) s0 w0).2.1.c.extra_output_list
        = (OutputRun T n s0 w0).2.1.c.extra_output_list ++ extras.map some ∧
      (∀ b ∈ outs, T.IsValid b (OutputRun T (n + 1) s0 w0).2.2 = true) ∧
      (∀ b ∈ extras, T.IsValid b (OutputRun T (n + 1) s0 w0).2.2 = true)) ∧
    (∀ o e,
      (OutputRun T (n + 1) s0 w0).2.1.calls = (OutputRun T n s0 w0).2.1.calls ++ [(o, e)] →
      (T.IsValid o (OutputRun T (n + 1) s0 w0).2.2 = false →
        (OutputRun T (n + 1) s0 w0).2.1.c = (OutputRun T n s0 w0).2.1.c) ∧
      (T.IsValid o (OutputRun T (n + 1) s0 w0).2.2 = false →
        ((T.ProcessOutput o e
            (cachedOrFresh T (OutputRun T n s0 w0).2.1.cache_extra_output
              (cachedOrFresh T (OutputRun T n s0 w0).2.1.cache_output
                (OutputRun T n s0 w0).2.2).2).2).1 = 0 ∨
         (T.ProcessOutput o e
            (cachedOrFresh T (OutputRun T n s0 w0).2.1.cache_extra_output
              (cachedOrFresh T (OutputRun T n s0 w0).2.1.cache_output
                (OutputRun T n s0 w0).2.2).2).2).1 = -EAGAIN) →
        (OutputRun T (n + 1) s0 w0).1 = Flow.next ∧
        (OutputRun T (n + 1) s0 w0).2.1.cache_output = some o ∧
        cachedOrFresh T (OutputRun T (n + 1) s0 w0).2.1.cache_output
            (OutputRun T (n + 1) s0 w0).2.2
          = (some o, (OutputRun T (n + 1) s0 w0).2.2) ∧
        ∃ e2, (OutputRun T (n + 2) s0 w0).2.1.calls
          = (OutputRun T (n + 1) s0 w0).2.1.calls ++ [(o, e2)]) ∧
      (¬ ((T.ProcessOutput o e
            (cachedOrFresh T (OutputRun T n s0 w0).2.1.cache_extra_output
              (cachedOrFresh T (OutputRun T n s0 w0).2.1.cache_output
                (OutputRun T n s0 w0).2.2).2).2).1 = 0 ∨
         (T.ProcessOutput o e
            (cachedOrFresh T (OutputRun T n s0 w0).2.1.cache_extra_output
              (cachedOrFresh T (OutputRun T n s0 w0).2.1.cache_output
                (OutputRun T n s0 w0).2.2).2).2).1 = -EAGAIN) →
        (OutputRun T (n + 1) s0 w0).1 = Flow.left)) := by
  by_cases hrun : (OutputRun T n s0 w0).1 = Flow.next ∧ (OutputRun T n s0 w0).2.1.c.quit = false
  · have e1 := OutputRun_succ_of_next T n s0 w0 hrun.1 hrun.2
    constructor
    · rw [e1]
      exact OutputIter_appends_valid T _ _
    · intro o e hc
      rw [e1] at hc
      refine ⟨?_, ?_, ?_⟩
      · intro hv
        rw [e1] at hv ⊢
        exact (OutputIter_invalid_primary T _ _ o e hc hv).1
      · intro hv hst
        have hv1 := hv
        rw [e1] at hv1
        obtain ⟨hsame, hcache⟩ := OutputIter_invalid_primary T _ _ o e hc hv1
        have hnext1 := OutputIter_nonfatal_invalid_next T _ _ o e hc hst hv1
        rw [← e1] at hsame hcache hnext1
        have hco := hcache hnext1
        refine ⟨hnext1, hco, ?_, ?_⟩
        · rw [hco]
          rfl
        · have hq : (OutputRun T (n + 1) s0 w0).2.1.c.quit = false := by
            rw [hsame]
            exact hrun.2
          rw [OutputRun_succ_of_next T (n + 1) s0 w0 hnext1 hq]
          exact OutputIter_reuses_cached T _ _ o hco
      · intro hst
        rw [e1]
        exact OutputIter_fatal_left T _ _ o e hc hst
  · have e1 := OutputRun_succ_stuck T n s0 w0 hrun
    constructor
    · refine ⟨[], [], ?_, ?_, ?_, ?_⟩
      · rw [e1]; simp
      · rw [e1]; simp
      · intro b hb; exact absurd hb (List.not_mem_nil b)
      · intro b hb; exact absurd hb (List.not_mem_nil b)
    · intro o e hc
      rw [e1] at hc
      simp at hc

/-- Witness of the amended C8: the first iteration of `busyOutput` gets
`-EAGAIN` and an invalid primary buffer 0; the loop goes on with buffer 0
cached and the second iteration passes buffer 0 again. -/
theorem OutputRun_appends_valid_retries_nonfatal_witness :
    (OutputRun busyOutput 1 (OutputState.start Nat) 0).1 = Flow.next ∧
    (OutputRun busyOutput 1 (OutputState.start Nat) 0).2.1.cache_output = some 0 ∧
    ∃ e2, (OutputRun busyOutput 2 (OutputState.start Nat) 0).2.1.calls
      = (OutputRun busyOutput 1 (OutputState.start Nat) 0).2.1.calls ++ [(0, e2)] :=
  have h := ((OutputRun_appends_valid_retries_nonfatal busyOutput (OutputState.start Nat)
    0 0).2 0 (some 1) rfl).2.1 rfl (Or.inr rfl)
  ⟨h.1, h.2.1, h.2.2.2⟩

end rkmedia
